import Mathlib

/-!
Verification of the scoring / deduplication / categorization engine of the
global-infra-digest pipeline (src/pipeline.py), shallowly embedded in Lean.

Python strings are modelled by `String` (lists of characters); the ASCII
fragment of `str.lower`/`str.strip` is modelled explicitly; the substring
test `pat in text` is modelled by `pyContains`.  The md5 digest used by
`_item_hash` is modelled by the digested content itself (the digest is
treated as injective, which is the intended reading of a content hash).
Python's stable in-place `list.sort(key=..., reverse=True)` is modelled by
`List.mergeSort` with a `≥`-on-key comparator, which is provably stable in
the same sense (equal keys keep their input order).
-/

namespace InfraDigest

/-! ### Python string primitives (ASCII fragment) -/

/-- ASCII case folding, the fragment of Python's `str.lower` the pipeline uses. -/
def lowerChar (c : Char) : Char :=
  if 'A' ≤ c ∧ c ≤ 'Z' then Char.ofNat (c.toNat + 32) else c

/-- `s.lower()` -/
def pyLower (s : String) : String := String.mk (s.toList.map lowerChar)

/-- Python whitespace (ASCII fragment), as stripped by `str.strip`. -/
def isPySpace (c : Char) : Bool :=
  c == ' ' || c == '\t' || c == '\n' || c == '\r' || c == Char.ofNat 11 || c == Char.ofNat 12

/-- `s.strip()` -/
def pyStrip (s : String) : String :=
  String.mk (((s.toList.dropWhile isPySpace).reverse.dropWhile isPySpace).reverse)

/-- Does `text` begin with `pat`? -/
def beginsWith : List Char → List Char → Bool
  | [], _ => true
  | _ :: _, [] => false
  | p :: ps, c :: cs => p == c && beginsWith ps cs

/-- Does `text` contain `pat` as a contiguous substring? -/
def hasSub (pat : List Char) : List Char → Bool
  | [] => pat.isEmpty
  | c :: cs => beginsWith pat (c :: cs) || hasSub pat cs

/-- Python's `pat in text` substring test. -/
def pyContains (text pat : String) : Bool := hasSub pat.toList text.toList

/-- Python's `sep.join(xs)`. -/
def pyJoin (sep : String) : List String → String
  | [] => ""
  | [x] => x
  | x :: y :: rest => x ++ sep ++ pyJoin sep (y :: rest)

/-! ### Data model

A normalized item as produced by the fetch collaborators: `title`, `url`,
`summary`, `source` and `tier` are always present; `relevance_score` is the
field added by the scorer (`none` models the key being absent from the dict). -/

structure Item where
  title : String
  url : String
  summary : String
  source : String
  tier : Nat
  relevance_score : Option Nat
deriving DecidableEq, Repr

/-- `item.get("relevance_score", 0)` -/
def relScore (it : Item) : Nat := it.relevance_score.getD 0

/-- The keyword configuration handed to the scorer
(`config["keywords"]["primary"/"secondary"]`, absent lists modelled as `[]`). -/
structure KwConfig where
  primary : List String
  secondary : List String
deriving DecidableEq, Repr

/-! ### `_item_hash` and `deduplicate` -/

/-- `_item_hash`: the source computes `md5(((title + url).lower().strip()).encode())`.
The md5 digest is modelled by the digested content itself. -/
def item_hash (it : Item) : String := pyStrip (pyLower (it.title ++ it.url))

/-- `deduplicate`: keep the first occurrence of each identity hash
(`seen` set modelled as a list, `unique` built by appending). -/
def deduplicate (items : List Item) : List Item :=
  (items.foldl
    (fun (st : List String × List Item) it =>
      if st.1.contains (item_hash it) then st
      else (item_hash it :: st.1, st.2 ++ [it]))
    ([], [])).2

/-! ### `keyword_relevance` -/

/-- The text an item is scored against: `f"{item['title']} {item.get('summary','')}".lower()`. -/
def itemText (it : Item) : String := pyLower (it.title ++ " " ++ it.summary)

/-- Tier boost: +3 for tier 1, +1 for tier 2, 0 otherwise. -/
def tierBoost (it : Item) : Nat :=
  if it.tier = 1 then 3 else if it.tier = 2 then 1 else 0

/-- The relevance score computed by `keyword_relevance`: +2 for every entry of
the lowercased primary keyword list occurring in the text, +1 for every entry
of the secondary list, plus the tier boost. -/
def kwScore (cfg : KwConfig) (it : Item) : Nat :=
  2 * ((cfg.primary.map pyLower).countP (fun kw => pyContains (itemText it) kw))
    + ((cfg.secondary.map pyLower).countP (fun kw => pyContains (itemText it) kw))
    + tierBoost it

/-- `item["relevance_score"] = score` -/
def annotateItem (cfg : KwConfig) (it : Item) : Item :=
  { it with relevance_score := some (kwScore cfg it) }

/-- `keyword_relevance`: keep (annotated) exactly the items scoring ≥ 2. -/
def keyword_relevance (items : List Item) (cfg : KwConfig) : List Item :=
  items.foldl
    (fun scored it =>
      if 2 ≤ kwScore cfg it then scored ++ [annotateItem cfg it] else scored)
    []

/-- After-call state of the caller's item list: `keyword_relevance` mutates the
retained items in place (adding `relevance_score`) and leaves the list order
untouched. -/
def keyword_relevance_post (items : List Item) (cfg : KwConfig) : List Item :=
  items.map (fun it => if 2 ≤ kwScore cfg it then annotateItem cfg it else it)

/-! ### `SECTION_RULES` -/

/-- One section's rule set: source-name hints (worth +5, at most once) and
keywords (worth +1 each). -/
structure SectionRules where
  source_hints : List String
  keywords : List String
deriving DecidableEq, Repr

/-- The fixed, ordered rule table (Python dict literal `SECTION_RULES`). -/
def SECTION_RULES : List (String × SectionRules) := [
  ("multilateral_finance",
    { source_hints := [
        "world bank", "ifc", "asian development bank", "african development bank",
        "aiib", "european investment bank", "ebrd", "new development bank",
        "oecd", "g20", "global infrastructure hub", "un-habitat"],
      keywords := [
        "world bank", "ifc ", "adb ", "aiib", "eib ", "ebrd", "ndb ",
        "oecd", "g20", "g7", "multilateral", "development bank",
        "development finance", "concessional", "sovereign guarantee",
        "global infrastructure hub", "un-habitat", "sdg", "mdb ",
        "international finance", "bilateral aid", "official development"] }),
  ("major_economies",
    { source_hints := [
        "us dot", "federal highway", "us epa", "army corps", "white house",
        "build america", "brookings", "eno center", "asce",
        "reason foundation", "national infrastructure commission",
        "infrastructure & projects authority", "european commission",
        "bruegel", "infrastructure intelligence", "new civil engineer",
        "france", "germany", "bmvi",
        "infrastructure australia", "infrastructure partnerships australia",
        "india", "gati shakti", "niti aayog", "belt and road",
        "japan", "south korea", "asean", "infrastructure asia"],
      keywords := [
        "united states", "us dot", "fhwa", "iija", "bipartisan infrastructure",
        "buy america", "european union", "ten-t", "investeu", "european commission",
        "united kingdom", "uk infrastructure", "national infrastructure commission",
        "india infrastructure", "gati shakti", "national infrastructure pipeline",
        "china infrastructure", "belt and road", "bri ", "australia infrastructure",
        "infrastructure australia", "japan infrastructure", "mlit",
        "south korea", "germany infrastructure", "france infrastructure",
        "gulf states", "saudi arabia", "neom", "uae infrastructure"] }),
  ("canada_watch",
    { source_hints := [
        "infrastructure canada", "canada infrastructure bank",
        "infrastructure ontario", "parliamentary budget officer",
        "ontario financial accountability", "c.d. howe",
        "federation of canadian municipalities", "canadian council for p3",
        "renew canada", "daily commercial news",
        "global affairs canada", "canada gazette"],
      keywords := [
        "canada", "canadian", "ontario", "quebec", "british columbia",
        "alberta", "infrastructure canada", "infrastructure ontario",
        "canada infrastructure bank", "cib ", "pbo ", "fao ",
        "fcm ", "municipal infrastructure", "provincial infrastructure",
        "ccppp", "p3 canada", "housing accelerator",
        "transit canada", "via rail", "metrolinx"] }),
  ("project_finance_delivery",
    { source_hints := [
        "world bank ppp", "global infrastructure investor",
        "ijglobal", "infrastructure investor", "preqin",
        "kpmg", "deloitte", "mckinsey"],
      keywords := [
        "public-private partnership", "ppp ", "p3 ", "concession",
        "design-build", "design build", "dbfm", "dbfom", "dbo ",
        "alliance contract", "progressive design", "project finance",
        "infrastructure fund", "infrastructure investor",
        "asset recycling", "toll road", "toll revenue",
        "procurement model", "delivery model", "risk allocation",
        "financial close", "bid ", "tender", "rfp ", "rfq ",
        "availability payment", "revenue risk",
        "lifecycle cost", "value for money", "vfm "] }),
  ("climate_sustainability",
    { source_hints := [
        "climate bonds", "global commission on adaptation",
        "coalition for climate resilient", "unep",
        "green climate fund", "iea", "irena", "c40"],
      keywords := [
        "climate", "green bond", "green infrastructure",
        "resilience", "adaptation", "net zero", "net-zero",
        "renewable energy infrastructure", "clean energy",
        "carbon capture", "ccs ", "ccus", "hydrogen",
        "sustainable infrastructure", "nature-based",
        "flood", "wildfire", "extreme weather",
        "climate bond", "green finance", "esg ",
        "just transition", "energy transition",
        "circular economy", "embodied carbon"] }),
  ("tech_innovation",
    { source_hints := [
        "smart cities world", "digital twin consortium",
        "buildingsmart", "world economic forum",
        "mit senseable", "iot analytics"],
      keywords := [
        "digital twin", "bim ", "building information model",
        "smart city", "smart cities", "smart infrastructure",
        "iot ", "internet of things", "artificial intelligence",
        "ai infrastructure", "machine learning",
        "construction technology", "contech", "infratech",
        "govtech", "modular construction", "prefab",
        "3d printing construction", "robotics construction",
        "autonomous vehicle", "ev charging", "5g ",
        "fiber optic", "data center"] })]

def MAX_ITEMS_PER_SECTION : Nat := 10

/-! ### `categorize_items` -/

/-- An accepted item as stored in a section's list. -/
structure AItem where
  title : String
  url : String
  source : String
  summary : String
  significance : String
deriving DecidableEq, Repr

/-- Per-section match score: +5 if any source hint occurs in the lowercased
source name (the Python loop breaks after the first hit), plus +1 for every
keyword occurring in the item text. -/
def sectionScore (rules : SectionRules) (text source_lower : String) : Nat :=
  (if rules.source_hints.any (fun h => pyContains source_lower h) then 5 else 0)
    + rules.keywords.countP (fun kw => pyContains text kw)

/-- The best-section fold: start from `(None, 0)` and replace the champion only
on a strictly larger score, so ties keep the earlier section. -/
def bestSection (text source_lower : String) : Option String × Nat :=
  SECTION_RULES.foldl
    (fun best sr =>
      let score := sectionScore sr.2 text source_lower
      if best.2 < score then (some sr.1, score) else best)
    (none, 0)

/-- Best section and score of an item. -/
def bestOf (it : Item) : Option String × Nat :=
  bestSection (itemText it) (pyLower it.source)

/-- Significance of an accepted item: `high` if `relevance_score + best_score ≥ 10`
or tier 1, else `medium` if the sum is ≥ 5, else `low`. -/
def significanceOf (it : Item) (best_score : Nat) : String :=
  if 10 ≤ relScore it + best_score ∨ it.tier = 1 then "high"
  else if 5 ≤ relScore it + best_score then "medium"
  else "low"

/-- The record appended to `sections[best_section]`. -/
def acceptedOf (it : Item) (best_score : Nat) : AItem :=
  ⟨it.title, it.url, it.source, it.summary, significanceOf it best_score⟩

/-- The sections mapping, as an association list in Python dict insertion order
(the keys are created once from `SECTION_RULES` and never added or removed). -/
abbrev SectionsDict : Type := List (String × List AItem)

/-- `sections[k]` (defaulting to `[]`; in every reachable state `k` is present). -/
def dictGet (m : SectionsDict) (k : String) : List AItem :=
  (List.lookup k m).getD []

/-- `sections[k] = v` on an existing key `k` (Python dict update keeps the key order). -/
def dictSet (m : SectionsDict) (k : String) (v : List AItem) : SectionsDict :=
  m.map (fun p => if p.1 == k then (k, v) else p)

/-- `sections = {section_id: [] for section_id in SECTION_RULES}` -/
def initSections : SectionsDict :=
  SECTION_RULES.map (fun sr => (sr.1, []))

/-- State of the categorization loop: the sections dict and the `used_urls` set
(modelled as a list, only membership matters). -/
structure CatState where
  sections : SectionsDict
  used_urls : List String
deriving DecidableEq

def initCatState : CatState := ⟨initSections, []⟩

/-- One iteration of the categorization loop body. -/
def catStep (st : CatState) (it : Item) : CatState :=
  match (bestOf it).1 with
  | none => st
  | some bs =>
    if 2 ≤ (bestOf it).2 then
      if st.used_urls.contains it.url then st
      else if (dictGet st.sections bs).length < MAX_ITEMS_PER_SECTION then
        ⟨dictSet st.sections bs (dictGet st.sections bs ++ [acceptedOf it (bestOf it).2]),
         st.used_urls ++ [it.url]⟩
      else st
    else st

/-- Stable descending insertion: `x` goes in front of the first element whose
key is `≤` its own, so it lands after every strictly-greater element and
before every equal-keyed element that followed it in the input. -/
def insertDesc (x : Item) : List Item → List Item
  | [] => [x]
  | y :: ys => if relScore y ≤ relScore x then x :: y :: ys else y :: insertDesc x ys

/-- `items.sort(key=lambda x: x.get("relevance_score", 0), reverse=True)`:
Python's sort is stable; a stable sort's output is uniquely determined by the
key order and the input order, so this stable insertion sort is an exact model
(sortedness, stability and permutation are proved below). -/
def sortDesc (items : List Item) : List Item :=
  items.foldr insertDesc []

/-- The whole categorization run (sort, then fold the loop body). -/
def catRun (items : List Item) : CatState :=
  (sortDesc items).foldl catStep initCatState

/-- `categorize_items` (its returned dict). -/
def categorize_items (items : List Item) : SectionsDict :=
  (catRun items).sections

/-- After-call state of the caller's item list: `categorize_items` sorts the
list in place before its loop, so the caller's list ends up reordered. -/
def categorize_items_post (items : List Item) : List Item := sortDesc items

/-! ### `generate_pulse` -/

/-- `section_labels` display-label dict. -/
def section_labels : List (String × String) := [
  ("multilateral_finance", "multilateral development finance"),
  ("major_economies", "major economy infrastructure policy"),
  ("canada_watch", "Canadian infrastructure"),
  ("project_finance_delivery", "project finance and delivery"),
  ("climate_sustainability", "climate resilience and sustainability"),
  ("tech_innovation", "technology and innovation")]

/-- `section_labels.get(s, s)` -/
def labelOf (s : String) : String := (List.lookup s section_labels).getD s

/-- `total_items = sum(len(v) for v in sections.values())` -/
def totalItems (sections : SectionsDict) : Nat :=
  (sections.map (fun p => p.2.length)).sum

/-- Titles of all items with significance `"high"`, in dict order then list order. -/
def highTitles (sections : SectionsDict) : List String :=
  sections.foldl
    (fun acc p => acc ++ (p.2.filter (fun a => a.significance == "high")).map AItem.title)
    []

/-- `[sid for sid, items in sections.items() if items]` -/
def activeSections (sections : SectionsDict) : List String :=
  (sections.filter (fun p => !p.2.isEmpty)).map Prod.fst

/-- The high-significance clause: `top = high_items[:3]`, then either
`"Top story: {top[0]}."` when `len(top) == 1`, or
`"Key developments include: {'; '.join(top[:2])}."` otherwise. -/
def highClause (high : List String) : String :=
  let top := high.take 3
  if top.length = 1 then "Top story: " ++ top.headD "" ++ "."
  else "Key developments include: " ++ pyJoin "; " (top.take 2) ++ "."

/-- The coverage clause:
`"Coverage spans {', '.join(coverage[:-1])}, and {coverage[-1]}."` when there
is more than one label, else `"Coverage focuses on {coverage[0]}."`. -/
def coverageClause (coverage : List String) : String :=
  if 1 < coverage.length then
    "Coverage spans " ++ pyJoin ", " coverage.dropLast ++ ", and " ++ coverage.getLastD "" ++ "."
  else "Coverage focuses on " ++ coverage.headD "" ++ "."

/-- The `parts` list assembled by `generate_pulse` in its non-quiet branch. -/
def pulseParts (sections : SectionsDict) : List String :=
  let parts := ["Today\x27s digest tracks " ++ toString (totalItems sections)
    ++ " developments across " ++ toString (activeSections sections).length ++ " domains."]
  let parts := if highTitles sections ≠ [] then parts ++ [highClause (highTitles sections)] else parts
  let coverage := ((activeSections sections).take 4).map labelOf
  if coverage ≠ [] then parts ++ [coverageClause coverage] else parts

/-- `generate_pulse` -/
def generate_pulse (sections : SectionsDict) : String :=
  if totalItems sections = 0 then
    "A quiet day across global infrastructure — no significant developments met our relevance threshold. Check back tomorrow."
  else pyJoin " " (pulseParts sections)

/-! ### `generate_outlook` -/

/-- `active = sum(1 for v in sections.values() if v)` -/
def activeCount (sections : SectionsDict) : Nat :=
  sections.countP (fun p => !p.2.isEmpty)

def broadOutlook : String :=
  "Broad coverage across all six domains today suggests an active policy week ahead. Monitor multilateral announcements and national budget developments for signals on infrastructure spending trajectories. Subscribe via RSS or bookmark this page for tomorrow\x27s edition."

def moderateOutlook : String :=
  "Moderate activity across infrastructure policy channels. Watch for follow-up developments on today\x27s high-significance items, particularly any cross-border procurement or financing announcements. Tomorrow\x27s digest will track continuations."

def lightOutlook : String :=
  "A lighter day in infrastructure intelligence. Policy cycles often see surges around fiscal year milestones, parliamentary sessions, and multilateral convenings. Check back tomorrow for updated coverage."

/-- `generate_outlook` -/
def generate_outlook (sections : SectionsDict) : String :=
  if 5 ≤ activeCount sections then broadOutlook
  else if 3 ≤ activeCount sections then moderateOutlook
  else lightOutlook

/-! ### Specification-side definitions (used to state the claims) -/

/-- The six fixed section identifiers, in rule-table order. -/
def sectionKeys : List String := SECTION_RULES.map Prod.fst

/-- Keep the first occurrence of each identity hash, in input order:
the reference characterization the deduplicator is compared against. -/
def dedupFirst : List Item → List Item
  | [] => []
  | x :: xs => x :: dedupFirst (xs.filter (fun y => !(item_hash y == item_hash x)))
termination_by l => l.length
decreasing_by
  simp only [List.length_cons]
  exact Nat.lt_succ_of_le (List.length_filter_le _ _)

/-- Generalization of `dedupFirst` to an already-seen hash set (mirrors the
loop state of `deduplicate`). -/
def dedupFrom (seen : List String) : List Item → List Item
  | [] => []
  | x :: xs =>
    if seen.contains (item_hash x) then dedupFrom seen xs
    else x :: dedupFrom (item_hash x :: seen) xs

/-- Modelled from the claim's wording for the scorer: +2 per *distinct*
(lowercased) primary keyword found in the text, +1 per distinct secondary
keyword, plus the tier boost.  Differs from `kwScore` only when a keyword
list contains duplicate entries. -/
def distinctKwScore (cfg : KwConfig) (it : Item) : Nat :=
  2 * ((cfg.primary.map pyLower).dedup.countP (fun kw => pyContains (itemText it) kw))
    + ((cfg.secondary.map pyLower).dedup.countP (fun kw => pyContains (itemText it) kw))
    + tierBoost it

/-- Does `it` qualify for section `s` in loop state `st`: `s` is its best
section, the best score is ≥ 2, and its URL is not yet used? -/
def qualifies (st : CatState) (s : String) (it : Item) : Bool :=
  ((bestOf it).1 == some s) && decide (2 ≤ (bestOf it).2) && !(st.used_urls.contains it.url)

/-- The items qualifying for section `s` along the categorization run started
in state `st`, in processing order (capacity does not stop an item from
qualifying; it only stops it from being accepted). -/
def qualList (s : String) : CatState → List Item → List Item
  | _, [] => []
  | st, it :: rest =>
    (if qualifies st s it then [it] else []) ++ qualList s (catStep st it) rest

/-- `u` is the URL of some accepted item of some section of `secs`. -/
def InSections (secs : SectionsDict) (u : String) : Prop :=
  ∃ p ∈ secs, ∃ a ∈ p.2, a.url = u

/-! ### Concrete inputs used by witnesses and counterexamples -/

/-- A tier-3 item from a World Bank source; its only match is the
`multilateral_finance` source hint (+5). -/
def exItemA : Item :=
  ⟨"Quiet update number one", "http://a", "", "World Bank News", 3, some 5⟩

/-- A tier-3 item from a Canadian source; its only match is the
`canada_watch` source hint (+5). -/
def exItemB : Item :=
  ⟨"Quiet update number two", "http://b", "", "Infrastructure Canada Daily", 3, some 4⟩

def exItems1 : List Item := [exItemA, exItemB]

/-- `exItemA` as accepted into `multilateral_finance` (5 + 5 = 10 ⇒ high). -/
def exAccA : AItem :=
  ⟨"Quiet update number one", "http://a", "World Bank News", "", "high"⟩

/-- `exItemB` as accepted into `canada_watch` (4 + 5 = 9 ⇒ medium). -/
def exAccB : AItem :=
  ⟨"Quiet update number two", "http://b", "Infrastructure Canada Daily", "", "medium"⟩

/-- Two items whose titles agree up to trailing whitespace and whose URLs are
equal; the concatenation-level hash of the source tells them apart. -/
def exDupA : Item := ⟨"Abc ", "u", "", "Src", 3, none⟩

def exDupB : Item := ⟨"Abc", "u", "", "Src", 3, none⟩

def exKwCfg : KwConfig := ⟨["infrastructure", "transit"], ["bridge"]⟩

def exKwItems : List Item :=
  [⟨"New infrastructure plan", "k1", "", "S", 3, none⟩,
   ⟨"Weather report", "k2", "", "S", 2, none⟩]

/-- A categorized result with three high-significance items. -/
def exSec3High : SectionsDict :=
  [("multilateral_finance",
    [⟨"T-one", "u1", "s", "", "high"⟩, ⟨"T-two", "u2", "s", "", "high"⟩,
     ⟨"T-three", "u3", "s", "", "high"⟩]),
   ("major_economies", []), ("canada_watch", []), ("project_finance_delivery", []),
   ("climate_sustainability", []), ("tech_innovation", [])]

/-- A categorized result with a single high-significance item and one active section. -/
def exSec1High : SectionsDict :=
  [("multilateral_finance", [⟨"T-solo", "u1", "s", "", "high"⟩]),
   ("major_economies", []), ("canada_watch", []), ("project_finance_delivery", []),
   ("climate_sustainability", []), ("tech_innovation", [])]

/-- A categorized result with exactly two active sections and no high items. -/
def exSec2Active : SectionsDict :=
  [("multilateral_finance", [⟨"A1", "u1", "s", "", "low"⟩]),
   ("major_economies", []),
   ("canada_watch", [⟨"B1", "u2", "s", "", "low"⟩]),
   ("project_finance_delivery", []), ("climate_sustainability", []),
   ("tech_innovation", [])]

def exSortA : Item := ⟨"A", "ua", "", "S", 3, some 1⟩

def exSortB : Item := ⟨"B", "ub", "", "S", 3, some 5⟩

/-- Twelve items in descending relevance order: ten fill `multilateral_finance`
to capacity, the eleventh (URL `dup`) is rejected by capacity, and the twelfth
(same URL `dup`, best section `canada_watch`) is processed after it. -/
def exC9 : List Item :=
  [⟨"Q1", "u1", "", "World Bank News", 3, some 22⟩,
   ⟨"Q2", "u2", "", "World Bank News", 3, some 21⟩,
   ⟨"Q3", "u3", "", "World Bank News", 3, some 20⟩,
   ⟨"Q4", "u4", "", "World Bank News", 3, some 19⟩,
   ⟨"Q5", "u5", "", "World Bank News", 3, some 18⟩,
   ⟨"Q6", "u6", "", "World Bank News", 3, some 17⟩,
   ⟨"Q7", "u7", "", "World Bank News", 3, some 16⟩,
   ⟨"Q8", "u8", "", "World Bank News", 3, some 15⟩,
   ⟨"Q9", "u9", "", "World Bank News", 3, some 14⟩,
   ⟨"Q10", "u10", "", "World Bank News", 3, some 13⟩,
   ⟨"Q11", "dup", "", "World Bank News", 3, some 12⟩,
   ⟨"Q12", "dup", "", "Infrastructure Canada Daily", 3, some 11⟩]

/-! ### Lemmas: the scorer -/

theorem krFold_eq (cfg : KwConfig) (items : List Item) : ∀ acc : List Item,
    items.foldl
      (fun scored it =>
        if 2 ≤ kwScore cfg it then scored ++ [annotateItem cfg it] else scored)
      acc
    = acc ++ items.filterMap
        (fun it => if 2 ≤ kwScore cfg it then some (annotateItem cfg it) else none) := by
  induction items with
  | nil => intro acc; simp
  | cons it items ih =>
    intro acc
    by_cases h : 2 ≤ kwScore cfg it <;>
      simp [h, ih, List.append_assoc]

/-- `keyword_relevance` returns exactly the ≥2-scoring items, annotated, in order. -/
theorem keyword_relevance_eq (items : List Item) (cfg : KwConfig) :
    keyword_relevance items cfg
      = items.filterMap
          (fun it => if 2 ≤ kwScore cfg it then some (annotateItem cfg it) else none) := by
  unfold keyword_relevance
  rw [krFold_eq]
  simp

/-! ### Lemmas: the deduplicator -/

theorem dedupFrom_congr : ∀ (xs : List Item) (seen1 seen2 : List String),
    (∀ h, h ∈ seen1 ↔ h ∈ seen2) →
    dedupFrom seen1 xs = dedupFrom seen2 xs := by
  intro xs
  induction xs with
  | nil => intro _ _ _; rfl
  | cons x xs ih =>
    intro seen1 seen2 hmem
    have hcongr : dedupFrom (item_hash x :: seen1) xs
        = dedupFrom (item_hash x :: seen2) xs := by
      refine ih _ _ ?_
      intro u
      simp [List.mem_cons, hmem u]
    have hc2 : seen1.contains (item_hash x) = seen2.contains (item_hash x) := by
      simp [List.contains, hmem (item_hash x)]
    simp only [dedupFrom, hc2]
    by_cases hc : seen2.contains (item_hash x) = true <;>
      simp [hc, ih _ _ hmem, hcongr]

theorem dedupFrom_cons_seen (h : String) : ∀ (xs : List Item) (seen : List String),
    dedupFrom (h :: seen) xs
      = dedupFrom seen (xs.filter (fun y => !(item_hash y == h))) := by
  intro xs
  induction xs with
  | nil => intro seen; rfl
  | cons y ys ih =>
    intro seen
    by_cases hy : item_hash y == h
    · have hy' : item_hash y = h := eq_of_beq hy
      simp only [dedupFrom, List.filter_cons, hy, Bool.not_true, cond_false,
        List.contains_cons, hy', beq_self_eq_true, Bool.true_or, if_true]
      exact ih seen
    · have hy' : (item_hash y == h) = false := by simpa using hy
      simp only [dedupFrom, List.filter_cons, hy', Bool.not_false, cond_true,
        List.contains_cons, hy', Bool.false_or]
      by_cases hs : seen.contains (item_hash y)
      · simp only [hs, if_true, dedupFrom, hs]
        exact ih seen
      · simp only [hs, if_false, dedupFrom]
        refine congrArg (List.cons y) ?_
        calc dedupFrom (item_hash y :: h :: seen) ys
            = dedupFrom (h :: item_hash y :: seen) ys := by
              refine dedupFrom_congr ys _ _ ?_
              intro u
              simp [List.mem_cons, or_left_comm]
          _ = dedupFrom (item_hash y :: seen) (ys.filter (fun z => !(item_hash z == h))) :=
              ih _

theorem dedupFold_eq : ∀ (xs : List Item) (seen : List String) (acc : List Item),
    (xs.foldl
      (fun (st : List String × List Item) it =>
        if st.1.contains (item_hash it) then st
        else (item_hash it :: st.1, st.2 ++ [it]))
      (seen, acc)).2
    = acc ++ dedupFrom seen xs := by
  intro xs
  induction xs with
  | nil => intro seen acc; simp [dedupFrom]
  | cons x xs ih =>
    intro seen acc
    by_cases hc : seen.contains (item_hash x) = true
    · rw [dedupFrom, if_pos hc]
      simp only [List.foldl_cons, hc, if_true]
      exact ih seen acc
    · rw [dedupFrom, if_neg hc]
      simp only [List.foldl_cons, hc, if_false]
      rw [ih]
      simp [List.append_assoc]

theorem dedupFrom_nil_eq : ∀ xs : List Item, dedupFrom [] xs = dedupFirst xs := by
  intro xs
  induction xs using dedupFirst.induct with
  | case1 => simp [dedupFrom, dedupFirst]
  | case2 x xs ih =>
    rw [dedupFirst, dedupFrom]
    simp only [List.contains_nil, Bool.false_eq_true, if_false]
    rw [dedupFrom_cons_seen, ih]

/-- `deduplicate` keeps exactly the first occurrence of each identity hash. -/
theorem deduplicate_eq (items : List Item) : deduplicate items = dedupFirst items := by
  unfold deduplicate
  rw [dedupFold_eq, dedupFrom_nil_eq]
  simp

theorem dedupFirst_sublist : ∀ l : List Item, (dedupFirst l).Sublist l := by
  intro l
  induction l using dedupFirst.induct with
  | case1 => simp [dedupFirst]
  | case2 x xs ih =>
    rw [dedupFirst]
    exact (ih.trans (List.filter_sublist _)).cons₂ x

theorem dedupFirst_pairwise : ∀ l : List Item,
    (dedupFirst l).Pairwise (fun a b => item_hash a ≠ item_hash b) := by
  intro l
  induction l using dedupFirst.induct with
  | case1 => simp [dedupFirst]
  | case2 x xs ih =>
    rw [dedupFirst]
    refine List.Pairwise.cons ?_ ih
    intro b hb
    have hbf := (dedupFirst_sublist _).subset hb
    have := List.of_mem_filter hbf
    simp only [Bool.not_eq_true'] at this
    intro hxb
    rw [hxb] at this
    simp at this

/-! ### Lemmas: the stable sort -/

theorem insertDesc_perm (x : Item) : ∀ l : List Item, (insertDesc x l).Perm (x :: l) := by
  intro l
  induction l with
  | nil => simp [insertDesc]
  | cons y ys ih =>
    rw [insertDesc]
    by_cases h : relScore y ≤ relScore x
    · simp [h]
    · simp only [h, if_false]
      exact (ih.cons y).trans (List.Perm.swap x y ys)

theorem sortDesc_perm (l : List Item) : (sortDesc l).Perm l := by
  induction l with
  | nil => simp [sortDesc]
  | cons x xs ih =>
    have : sortDesc (x :: xs) = insertDesc x (sortDesc xs) := rfl
    rw [this]
    exact (insertDesc_perm x (sortDesc xs)).trans (ih.cons x)

theorem insertDesc_pairwise (x : Item) : ∀ l : List Item,
    l.Pairwise (fun a b => relScore b ≤ relScore a) →
    (insertDesc x l).Pairwise (fun a b => relScore b ≤ relScore a) := by
  intro l
  induction l with
  | nil => intro _; simp [insertDesc]
  | cons y ys ih =>
    intro hp
    rw [insertDesc]
    rcases List.pairwise_cons.mp hp with ⟨hy, hys⟩
    by_cases h : relScore y ≤ relScore x
    · rw [if_pos h]
      refine List.Pairwise.cons ?_ hp
      intro z hz
      rcases List.mem_cons.mp hz with rfl | hz
      · exact h
      · exact le_trans (hy z hz) h
    · rw [if_neg h]
      refine List.Pairwise.cons ?_ (ih hys)
      intro z hz
      have hz' := (insertDesc_perm x ys).mem_iff.mp hz
      rcases List.mem_cons.mp hz' with rfl | hz'
      · exact Nat.le_of_lt (Nat.lt_of_not_le h)
      · exact hy z hz'

theorem sortDesc_sorted (l : List Item) :
    (sortDesc l).Pairwise (fun a b => relScore b ≤ relScore a) := by
  induction l with
  | nil => simp [sortDesc]
  | cons x xs ih => exact insertDesc_pairwise x (sortDesc xs) ih

theorem insertDesc_filter (k : Nat) (x : Item) : ∀ l : List Item,
    (insertDesc x l).filter (fun it => relScore it == k)
      = if relScore x == k then x :: l.filter (fun it => relScore it == k)
        else l.filter (fun it => relScore it == k) := by
  intro l
  induction l with
  | nil =>
    by_cases hx : relScore x = k <;> simp [insertDesc, hx]
  | cons y ys ih =>
    rw [insertDesc]
    by_cases h : relScore y ≤ relScore x
    · rw [if_pos h]
      by_cases hx : relScore x = k <;> simp [hx, List.filter_cons]
    · rw [if_neg h, List.filter_cons, ih]
      by_cases hx : relScore x = k
      · have hyk : ¬ relScore y = k := by
          have := Nat.lt_of_not_le h
          omega
        simp [hx, hyk]
      · by_cases hy : relScore y = k <;> simp [hx, hy]

/-- Stability: within each relevance-score class, `sortDesc` preserves input order. -/
theorem sortDesc_filter (l : List Item) (k : Nat) :
    (sortDesc l).filter (fun it => relScore it == k)
      = l.filter (fun it => relScore it == k) := by
  induction l with
  | nil => rfl
  | cons x xs ih =>
    have hstep : sortDesc (x :: xs) = insertDesc x (sortDesc xs) := rfl
    rw [hstep, insertDesc_filter, List.filter_cons, ih]

/-! ### Lemmas: the sections dict -/

theorem dictGet_cons (a : String) (v : List AItem) (m : SectionsDict) (k : String) :
    dictGet ((a, v) :: m) k = if k == a then v else dictGet m k := by
  by_cases h : k == a <;> simp [dictGet, List.lookup, h]

theorem dictSet_cons (a : String) (v : List AItem) (m : SectionsDict) (k : String)
    (w : List AItem) :
    dictSet ((a, v) :: m) k w = (if a == k then (k, w) else (a, v)) :: dictSet m k w := by
  by_cases h : a == k
  · have ha := eq_of_beq h
    subst ha
    simp [dictSet]
  · have ha : ¬ a = k := by simpa using h
    simp [dictSet, ha]

theorem dictSet_keys (m : SectionsDict) (k : String) (v : List AItem) :
    (dictSet m k v).map Prod.fst = m.map Prod.fst := by
  induction m with
  | nil => rfl
  | cons p m ih =>
    obtain ⟨a, w⟩ := p
    by_cases h : a == k
    · have ha : a = k := eq_of_beq h
      simp [dictSet_cons, h, ih, ha]
    · simp [dictSet_cons, h, ih]

theorem dictGet_dictSet_ne (m : SectionsDict) {k s : String} (v : List AItem) (h : s ≠ k) :
    dictGet (dictSet m k v) s = dictGet m s := by
  induction m with
  | nil => rfl
  | cons p m ih =>
    obtain ⟨a, w⟩ := p
    by_cases ha : a == k
    · have ha' : a = k := eq_of_beq ha
      subst ha'
      have hs : (s == a) = false := by simp [h]
      simp [dictSet_cons, ha, dictGet_cons, hs, ih]
    · simp [dictSet_cons, ha, dictGet_cons, ih]

theorem dictGet_dictSet_self (m : SectionsDict) {k : String} (v : List AItem)
    (h : k ∈ m.map Prod.fst) : dictGet (dictSet m k v) k = v := by
  induction m with
  | nil => simp at h
  | cons p m ih =>
    obtain ⟨a, w⟩ := p
    by_cases ha : a == k
    · simp [dictSet_cons, ha, dictGet_cons]
    · have hak : ¬ a = k := by simpa using ha
      have hk : (k == a) = false := by simp [Ne.symm hak]
      have h' : k ∈ m.map Prod.fst := by
        rw [List.map_cons] at h
        rcases List.mem_cons.mp h with h'' | h''
        · exact absurd h''.symm hak
        · exact h''
      simp [dictSet_cons, ha, dictGet_cons, hk, ih h']

theorem dictSet_of_not_mem (m : SectionsDict) {k : String} (v : List AItem)
    (h : k ∉ m.map Prod.fst) : dictSet m k v = m := by
  induction m with
  | nil => rfl
  | cons p m ih =>
    obtain ⟨a, w⟩ := p
    have hak : ¬ a = k := by
      intro e
      exact h (by simp [e])
    have h' : k ∉ m.map Prod.fst := by
      intro e
      exact h (by simp [e])
    simp [dictSet_cons, hak, ih h']

theorem dictGet_of_mem_nodup (m : SectionsDict) (hnd : (m.map Prod.fst).Nodup)
    {p : String × List AItem} (hp : p ∈ m) : dictGet m p.1 = p.2 := by
  induction m with
  | nil => simp at hp
  | cons q m ih =>
    obtain ⟨a, w⟩ := q
    rcases List.mem_cons.mp hp with rfl | hp'
    · simp [dictGet_cons]
    · rw [List.map_cons] at hnd
      have hnd' := List.nodup_cons.mp hnd
      have hne : ¬ p.1 = a := by
        intro e
        have hmem : p.1 ∈ List.map Prod.fst m := List.mem_map_of_mem Prod.fst hp'
        rw [e] at hmem
        exact hnd'.1 hmem
      simp only [dictGet_cons, show (p.1 == a) = false by simp [hne], if_false]
      exact ih hnd'.2 hp'

theorem dictGet_mapNil (L : List (String × SectionRules)) (s : String) :
    dictGet (L.map (fun sr => (sr.1, ([] : List AItem)))) s = [] := by
  induction L with
  | nil => rfl
  | cons p L ih =>
    by_cases h : s == p.1 <;> simp [dictGet_cons, h, ih]

theorem dictGet_init (s : String) : dictGet initSections s = [] :=
  dictGet_mapNil SECTION_RULES s

theorem initSections_keys : initSections.map Prod.fst = sectionKeys := by
  simp [initSections, sectionKeys, List.map_map]

theorem sectionKeys_nodup : sectionKeys.Nodup := by decide

/-! ### Lemmas: best-section selection and the loop body -/

theorem bestSection_mem (text src s : String)
    (h : (bestSection text src).1 = some s) : s ∈ sectionKeys := by
  have key : ∀ (L : List (String × SectionRules)) (acc : Option String × Nat),
      ((L.foldl (fun best sr =>
        let score := sectionScore sr.2 text src
        if best.2 < score then (some sr.1, score) else best) acc).1 = some s) →
      acc.1 = some s ∨ s ∈ L.map Prod.fst := by
    intro L
    induction L with
    | nil => intro acc h; exact Or.inl h
    | cons sr L ih =>
      intro acc h
      simp only [List.foldl_cons] at h
      rcases ih _ h with h' | h'
      · by_cases hlt : acc.2 < sectionScore sr.2 text src
        · rw [if_pos hlt] at h'
          right
          simp only [Option.some.injEq] at h'
          simp [← h']
        · rw [if_neg hlt] at h'
          exact Or.inl h'
      · right
        simp [h']
  rcases key SECTION_RULES (none, 0) h with h' | h'
  · simp at h'
  · exact h'

theorem bestOf_mem (it : Item) {s : String}
    (h : (bestOf it).1 = some s) : s ∈ sectionKeys :=
  bestSection_mem _ _ _ h

theorem qualifies_iff (st : CatState) (s : String) (it : Item) :
    qualifies st s it = true ↔
      ((bestOf it).1 = some s ∧ 2 ≤ (bestOf it).2
        ∧ st.used_urls.contains it.url = false) := by
  simp [qualifies, Bool.and_eq_true, and_assoc]

theorem qualifies_eq_false (st : CatState) (s : String) (it : Item) :
    qualifies st s it = false ↔
      ¬ ((bestOf it).1 = some s ∧ 2 ≤ (bestOf it).2
          ∧ st.used_urls.contains it.url = false) := by
  rw [← qualifies_iff]
  cases qualifies st s it <;> simp

theorem qualifies_unique {st : CatState} {s s' : String} {it : Item}
    (h : qualifies st s it = true) (h' : qualifies st s' it = true) : s = s' := by
  have h1 := ((qualifies_iff st s it).mp h).1
  have h2 := ((qualifies_iff st s' it).mp h').1
  rw [h1] at h2
  exact Option.some.inj h2

theorem catStep_cases (st : CatState) (it : Item) :
    ((∀ s, qualifies st s it = false) ∧ catStep st it = st)
  ∨ (∃ bs, qualifies st bs it = true
      ∧ (dictGet st.sections bs).length < MAX_ITEMS_PER_SECTION
      ∧ catStep st it
          = ⟨dictSet st.sections bs (dictGet st.sections bs ++ [acceptedOf it (bestOf it).2]),
             st.used_urls ++ [it.url]⟩)
  ∨ (∃ bs, qualifies st bs it = true
      ∧ ¬ (dictGet st.sections bs).length < MAX_ITEMS_PER_SECTION
      ∧ catStep st it = st) := by
  cases hb : (bestOf it).1 with
  | none =>
    left
    refine ⟨?_, by simp only [catStep, hb]⟩
    intro s
    rw [qualifies_eq_false]
    simp [hb]
  | some bs =>
    by_cases h2 : 2 ≤ (bestOf it).2
    · by_cases hu : st.used_urls.contains it.url = true
      · left
        refine ⟨?_, by simp only [catStep, hb, if_pos h2, if_pos hu]⟩
        intro s
        rw [qualifies_eq_false]
        have hu2 : it.url ∈ st.used_urls := by simpa using hu
        simp [hu2]
      · have hu' : st.used_urls.contains it.url = false := by
          simpa using hu
        have hq : qualifies st bs it = true :=
          (qualifies_iff st bs it).mpr ⟨hb, h2, hu'⟩
        by_cases hcap : (dictGet st.sections bs).length < MAX_ITEMS_PER_SECTION
        · right; left
          exact ⟨bs, hq, hcap,
            by simp only [catStep, hb, if_pos h2, if_neg hu, if_pos hcap]⟩
        · right; right
          exact ⟨bs, hq, hcap,
            by simp only [catStep, hb, if_pos h2, if_neg hu, if_neg hcap]⟩
    · left
      refine ⟨?_, by simp only [catStep, hb, if_neg h2]⟩
      intro s
      rw [qualifies_eq_false]
      simp [h2]

theorem catStep_keys (st : CatState) (it : Item) :
    (catStep st it).sections.map Prod.fst = st.sections.map Prod.fst := by
  rcases catStep_cases st it with ⟨-, he⟩ | ⟨bs, -, -, he⟩ | ⟨bs, -, -, he⟩ <;> rw [he]
  exact dictSet_keys _ _ _

theorem catFold_keys : ∀ (l : List Item) (st : CatState),
    ((l.foldl catStep st).sections).map Prod.fst = st.sections.map Prod.fst := by
  intro l
  induction l with
  | nil => intro st; rfl
  | cons it l ih =>
    intro st
    rw [List.foldl_cons, ih, catStep_keys]

/-! ### The capacity / first-ten-qualifying characterization -/

theorem catFold_get (s : String) : ∀ (l : List Item) (st : CatState),
    st.sections.map Prod.fst = sectionKeys →
    (dictGet st.sections s).length ≤ MAX_ITEMS_PER_SECTION →
    dictGet ((l.foldl catStep st).sections) s
      = dictGet st.sections s
        ++ ((qualList s st l).take
              (MAX_ITEMS_PER_SECTION - (dictGet st.sections s).length)).map
            (fun it => acceptedOf it (bestOf it).2) := by
  intro l
  induction l with
  | nil => intro st hk hlen; simp [qualList]
  | cons it l ih =>
    intro st hk hlen
    rw [List.foldl_cons, qualList]
    rcases catStep_cases st it with ⟨hq, he⟩ | ⟨bs, hq, hcap, he⟩ | ⟨bs, hq, hcap, he⟩
    · have hqs : qualifies st s it = false := hq s
      rw [he, hqs]
      simp only [Bool.false_eq_true, if_false, List.nil_append]
      exact ih st hk hlen
    · by_cases hbs : bs = s
      · subst hbs
        have hsk : bs ∈ st.sections.map Prod.fst := by
          rw [hk]; exact bestOf_mem it ((qualifies_iff st bs it).mp hq).1
        have hget : dictGet (catStep st it).sections bs
            = dictGet st.sections bs ++ [acceptedOf it (bestOf it).2] := by
          rw [he]
          exact dictGet_dictSet_self _ _ hsk
        have hkeys' : (catStep st it).sections.map Prod.fst = sectionKeys := by
          rw [catStep_keys, hk]
        have hlen' : (dictGet (catStep st it).sections bs).length
            ≤ MAX_ITEMS_PER_SECTION := by
          rw [hget]
          simp only [List.length_append, List.length_cons, List.length_nil]
          omega
        have harith : MAX_ITEMS_PER_SECTION - (dictGet st.sections bs).length
            = (MAX_ITEMS_PER_SECTION - (dictGet (catStep st it).sections bs).length) + 1 := by
          rw [hget]
          simp only [List.length_append, List.length_cons, List.length_nil]
          omega
        rw [hq, if_pos rfl, List.singleton_append, harith, List.take_succ_cons,
          List.map_cons, ih (catStep st it) hkeys' hlen', hget, List.append_assoc,
          List.singleton_append]
      · have hqs : qualifies st s it = false := by
          cases hval : qualifies st s it
          · rfl
          · exact absurd (qualifies_unique hq hval) hbs
        have hne : s ≠ bs := fun e => hbs e.symm
        have hget : dictGet (catStep st it).sections s = dictGet st.sections s := by
          rw [he]
          exact dictGet_dictSet_ne _ _ hne
        have hkeys' : (catStep st it).sections.map Prod.fst = sectionKeys := by
          rw [catStep_keys, hk]
        rw [hqs]
        simp only [Bool.false_eq_true, if_false, List.nil_append]
        rw [ih (catStep st it) hkeys' (by rw [hget]; exact hlen), hget]
    · by_cases hbs : bs = s
      · subst hbs
        have hfull : (dictGet st.sections bs).length = MAX_ITEMS_PER_SECTION := by
          omega
        have hz : MAX_ITEMS_PER_SECTION - (dictGet st.sections bs).length = 0 := by
          omega
        rw [he, hq, if_pos rfl, hz, List.take_zero, List.map_nil, List.append_nil,
          ih st hk hlen, hz, List.take_zero, List.map_nil, List.append_nil]
      · have hqs : qualifies st s it = false := by
          cases hval : qualifies st s it
          · rfl
          · exact absurd (qualifies_unique hq hval) hbs
        rw [he, hqs]
        simp only [Bool.false_eq_true, if_false, List.nil_append]
        exact ih st hk hlen

/-! ### The used-URL invariant -/

theorem InSections_cons {p : String × List AItem} {m : SectionsDict} {u : String} :
    InSections (p :: m) u ↔ (∃ a ∈ p.2, a.url = u) ∨ InSections m u := by
  constructor
  · rintro ⟨q, hq, a, ha, rfl⟩
    rcases List.mem_cons.mp hq with rfl | hq'
    · exact Or.inl ⟨a, ha, rfl⟩
    · exact Or.inr ⟨q, hq', a, ha, rfl⟩
  · rintro (⟨a, ha, rfl⟩ | ⟨q, hq, a, ha, rfl⟩)
    · exact ⟨p, List.mem_cons_self _ _, a, ha, rfl⟩
    · exact ⟨q, List.mem_cons_of_mem _ hq, a, ha, rfl⟩

theorem InSections_dictSet_append (m : SectionsDict)
    (hnd : (m.map Prod.fst).Nodup) {bs : String}
    (hbs : bs ∈ m.map Prod.fst) (x : AItem) (u : String) :
    InSections (dictSet m bs (dictGet m bs ++ [x])) u ↔ InSections m u ∨ x.url = u := by
  induction m with
  | nil => simp at hbs
  | cons p m ih =>
    obtain ⟨a, w⟩ := p
    rw [List.map_cons] at hnd hbs
    have hnd' := List.nodup_cons.mp hnd
    by_cases hab : a == bs
    · have hab' : a = bs := eq_of_beq hab
      subst hab'
      have hga : dictGet ((a, w) :: m) a = w := by simp [dictGet_cons]
      rw [hga, dictSet_cons]
      simp only [beq_self_eq_true, if_true]
      rw [dictSet_of_not_mem m _ hnd'.1, InSections_cons, InSections_cons]
      constructor
      · rintro (⟨a', ha', rfl⟩ | hm)
        · rcases List.mem_append.mp ha' with h | h
          · exact Or.inl (Or.inl ⟨a', h, rfl⟩)
          · rcases List.mem_singleton.mp h with rfl
            exact Or.inr rfl
        · exact Or.inl (Or.inr hm)
      · rintro ((⟨a', ha', rfl⟩ | hm) | rfl)
        · exact Or.inl ⟨a', List.mem_append_left _ ha', rfl⟩
        · exact Or.inr hm
        · exact Or.inl ⟨x, List.mem_append_right _ (List.mem_singleton_self x), rfl⟩
    · have hab' : ¬ a = bs := by simpa using hab
      have hbs' : bs ∈ m.map Prod.fst := by
        rcases List.mem_cons.mp hbs with h | h
        · exact absurd h.symm hab'
        · exact h
      have hba : (bs == a) = false := by simp [Ne.symm hab']
      have hab2 : (a == bs) = false := by simp [hab']
      rw [dictGet_cons, hba]
      simp only [Bool.false_eq_true, if_false]
      rw [dictSet_cons, hab2]
      simp only [Bool.false_eq_true, if_false]
      rw [InSections_cons, InSections_cons, ih hnd'.2 hbs', or_assoc]

theorem usedUrls_notIn (st : CatState) (it : Item)
    (hinv : ∀ u, u ∈ st.used_urls ↔ InSections st.sections u)
    (hu : st.used_urls.contains it.url = false) :
    ∀ q ∈ st.sections, ∀ b ∈ q.2, it.url ≠ b.url := by
  intro q hq b hb heq
  have : it.url ∈ st.used_urls := (hinv it.url).mpr ⟨q, hq, b, hb, heq.symm⟩
  simp [this] at hu

theorem catStep_urlInv (st : CatState) (it : Item)
    (hk : st.sections.map Prod.fst = sectionKeys)
    (hinv : ∀ u, u ∈ st.used_urls ↔ InSections st.sections u) :
    ∀ u, u ∈ (catStep st it).used_urls ↔ InSections (catStep st it).sections u := by
  rcases catStep_cases st it with ⟨-, he⟩ | ⟨bs, hq, -, he⟩ | ⟨bs, -, -, he⟩
  · rw [he]; exact hinv
  · rw [he]
    intro u
    have hbs : bs ∈ st.sections.map Prod.fst := by
      rw [hk]; exact bestOf_mem it ((qualifies_iff st bs it).mp hq).1
    have hnd : (st.sections.map Prod.fst).Nodup := by
      rw [hk]; exact sectionKeys_nodup
    show u ∈ st.used_urls ++ [it.url] ↔ _
    rw [InSections_dictSet_append st.sections hnd hbs]
    simp only [List.mem_append, List.mem_singleton, hinv u, acceptedOf]
    constructor
    · rintro (h | rfl)
      · exact Or.inl h
      · exact Or.inr rfl
    · rintro (h | rfl)
      · exact Or.inl h
      · exact Or.inr rfl
  · rw [he]; exact hinv

/-! ### Cross-section URL disjointness -/

theorem pairwise_dictSet_append (m : SectionsDict) {x : AItem} (bs : String) :
    (m.map Prod.fst).Nodup →
    m.Pairwise (fun p q => ∀ a ∈ p.2, ∀ b ∈ q.2, a.url ≠ b.url) →
    (∀ q ∈ m, ∀ b ∈ q.2, x.url ≠ b.url) →
    (dictSet m bs (dictGet m bs ++ [x])).Pairwise
      (fun p q => ∀ a ∈ p.2, ∀ b ∈ q.2, a.url ≠ b.url) := by
  induction m with
  | nil => intro _ _ _; simp [dictSet]
  | cons p m ih =>
    intro hnd hm hfresh
    obtain ⟨a, w⟩ := p
    rw [List.map_cons] at hnd
    have hnd' := List.nodup_cons.mp hnd
    rcases List.pairwise_cons.mp hm with ⟨hhead, htail⟩
    by_cases hab : a == bs
    · have hab' : a = bs := eq_of_beq hab
      subst hab'
      have hga : dictGet ((a, w) :: m) a = w := by simp [dictGet_cons]
      rw [hga, dictSet_cons]
      simp only [beq_self_eq_true, if_true]
      rw [dictSet_of_not_mem m _ hnd'.1]
      refine List.Pairwise.cons ?_ htail
      intro q hq aa haa b hb
      rcases List.mem_append.mp haa with h | h
      · exact hhead q hq aa h b hb
      · rcases List.mem_singleton.mp h with rfl
        exact hfresh q (List.mem_cons_of_mem _ hq) b hb
    · have hab' : ¬ a = bs := by simpa using hab
      have hab2 : (a == bs) = false := by simp [hab']
      have hba : (bs == a) = false := by simp [Ne.symm hab']
      rw [dictGet_cons, hba]
      simp only [Bool.false_eq_true, if_false]
      rw [dictSet_cons, hab2]
      simp only [Bool.false_eq_true, if_false]
      refine List.Pairwise.cons ?_
        (ih hnd'.2 htail (fun q hq => hfresh q (List.mem_cons_of_mem _ hq)))
      intro q' hq' aa haa b hb
      rcases List.mem_map.mp hq' with ⟨q, hq, hfq⟩
      by_cases hqb : q.1 == bs
      · have hq1 : q.1 = bs := eq_of_beq hqb
        rw [if_pos hqb] at hfq
        subst hfq
        rcases List.mem_append.mp hb with h | h
        · have hdq : dictGet m q.1 = q.2 := dictGet_of_mem_nodup m hnd'.2 hq
          rw [hq1] at hdq
          rw [hdq] at h
          exact hhead q hq aa haa b h
        · rcases List.mem_singleton.mp h with rfl
          exact fun e =>
            (hfresh (a, w) (List.mem_cons_self _ _) aa haa) e.symm
      · rw [if_neg hqb] at hfq
        subst hfq
        exact hhead q hq aa haa b hb

theorem catStep_pairwise (st : CatState) (it : Item)
    (hk : st.sections.map Prod.fst = sectionKeys)
    (hinv : ∀ u, u ∈ st.used_urls ↔ InSections st.sections u)
    (hp : st.sections.Pairwise (fun p q => ∀ a ∈ p.2, ∀ b ∈ q.2, a.url ≠ b.url)) :
    (catStep st it).sections.Pairwise
      (fun p q => ∀ a ∈ p.2, ∀ b ∈ q.2, a.url ≠ b.url) := by
  rcases catStep_cases st it with ⟨-, he⟩ | ⟨bs, hq, -, he⟩ | ⟨bs, -, -, he⟩
  · rw [he]; exact hp
  · rw [he]
    have hnd : (st.sections.map Prod.fst).Nodup := by
      rw [hk]; exact sectionKeys_nodup
    have hu : st.used_urls.contains it.url = false :=
      ((qualifies_iff st bs it).mp hq).2.2
    have hfresh := usedUrls_notIn st it hinv hu
    exact pairwise_dictSet_append st.sections bs hnd hp
      (fun q hq' b hb => hfresh q hq' b hb)
  · rw [he]; exact hp

/-- All three loop invariants, carried through the whole fold. -/
theorem catFold_inv : ∀ (l : List Item) (st : CatState),
    st.sections.map Prod.fst = sectionKeys →
    (∀ u, u ∈ st.used_urls ↔ InSections st.sections u) →
    st.sections.Pairwise (fun p q => ∀ a ∈ p.2, ∀ b ∈ q.2, a.url ≠ b.url) →
    (∀ u, u ∈ (l.foldl catStep st).used_urls
        ↔ InSections (l.foldl catStep st).sections u)
    ∧ (l.foldl catStep st).sections.Pairwise
        (fun p q => ∀ a ∈ p.2, ∀ b ∈ q.2, a.url ≠ b.url) := by
  intro l
  induction l with
  | nil => intro st hk hinv hp; exact ⟨hinv, hp⟩
  | cons it l ih =>
    intro st hk hinv hp
    rw [List.foldl_cons]
    exact ih (catStep st it) (by rw [catStep_keys, hk])
      (catStep_urlInv st it hk hinv) (catStep_pairwise st it hk hinv hp)

theorem initSections_urlInv (u : String) :
    u ∈ initCatState.used_urls ↔ InSections initCatState.sections u := by
  constructor
  · intro h; simp [initCatState] at h
  · rintro ⟨p, hp, a, ha, -⟩
    rcases List.mem_map.mp hp with ⟨sr, -, hsr⟩
    rw [← hsr] at ha
    simp at ha

theorem initSections_pairwise :
    initCatState.sections.Pairwise
      (fun p q => ∀ a ∈ p.2, ∀ b ∈ q.2, a.url ≠ b.url) := by
  have : ∀ L : List (String × SectionRules),
      (L.map (fun sr => (sr.1, ([] : List AItem)))).Pairwise
        (fun p q => ∀ a ∈ p.2, ∀ b ∈ q.2, a.url ≠ b.url) := by
    intro L
    induction L with
    | nil => simp
    | cons sr L ih =>
      refine List.Pairwise.cons ?_ ih
      intro q hq a ha
      simp at ha
  exact this SECTION_RULES

/-! ### Lemmas: the synthesizer -/

theorem totalItems_zero_iff (sections : SectionsDict) :
    totalItems sections = 0 ↔ ∀ p ∈ sections, p.2 = [] := by
  induction sections with
  | nil => simp [totalItems]
  | cons p m ih =>
    rw [totalItems, List.map_cons, List.sum_cons]
    rw [totalItems] at ih
    constructor
    · intro h q hq
      rcases List.mem_cons.mp hq with rfl | hq'
      · exact List.length_eq_zero.mp (by omega)
      · exact (ih.mp (by omega)) q hq'
    · intro h
      have h1 : p.2 = [] := h p (List.mem_cons_self _ _)
      have h2 := ih.mpr (fun q hq => h q (List.mem_cons_of_mem _ hq))
      simp [h1, h2]

theorem highTitles_foldl (f : String × List AItem → List String) :
    ∀ (l : SectionsDict) (acc : List String),
      l.foldl (fun acc p => acc ++ f p) acc = acc ++ (l.map f).flatten := by
  intro l
  induction l with
  | nil => intro acc; simp
  | cons p m ih => intro acc; simp [ih, List.append_assoc]

theorem highTitles_of_empty (sections : SectionsDict)
    (h : ∀ p ∈ sections, p.2 = []) : highTitles sections = [] := by
  rw [highTitles, highTitles_foldl, List.nil_append, List.flatten_eq_nil_iff]
  intro l hl
  rcases List.mem_map.mp hl with ⟨p, hp, rfl⟩
  simp [h p hp]

theorem activeSections_of_empty (sections : SectionsDict)
    (h : ∀ p ∈ sections, p.2 = []) : activeSections sections = [] := by
  rw [activeSections]
  have : sections.filter (fun p => !p.2.isEmpty) = [] := by
    rw [List.filter_eq_nil_iff]
    intro p hp
    simp [h p hp]
  rw [this, List.map_nil]

theorem highClause_mem (sections : SectionsDict) (h : highTitles sections ≠ []) :
    highClause (highTitles sections) ∈ pulseParts sections := by
  rw [pulseParts]
  simp only [h, ne_eq, not_false_iff, if_true]
  by_cases ha : activeSections sections = [] <;> simp [ha, List.mem_append]

theorem coverageClause_mem (sections : SectionsDict)
    (h : ((activeSections sections).take 4).map labelOf ≠ []) :
    coverageClause (((activeSections sections).take 4).map labelOf)
      ∈ pulseParts sections := by
  have ha : ¬ activeSections sections = [] := by
    intro e
    exact h (by simp [e])
  rw [pulseParts]
  by_cases hh : highTitles sections ≠ [] <;>
    simp [hh, ha, List.mem_append]

theorem generate_pulse_eq (sections : SectionsDict) (h : totalItems sections ≠ 0) :
    generate_pulse sections = pyJoin " " (pulseParts sections) := by
  rw [generate_pulse, if_neg h]

theorem total_ne_zero_of_high (sections : SectionsDict)
    (h : highTitles sections ≠ []) : totalItems sections ≠ 0 := by
  intro h0
  exact h (highTitles_of_empty sections ((totalItems_zero_iff sections).mp h0))

theorem total_ne_zero_of_active (sections : SectionsDict)
    (h : activeSections sections ≠ []) : totalItems sections ≠ 0 := by
  intro h0
  exact h (activeSections_of_empty sections ((totalItems_zero_iff sections).mp h0))

theorem kwScore_annotateItem (cfg : KwConfig) (it : Item) :
    kwScore cfg (annotateItem cfg it) = kwScore cfg it := rfl

theorem take_two_take_three {α : Type} (l : List α) : (l.take 3).take 2 = l.take 2 := by
  cases l with
  | nil => rfl
  | cons a l =>
    cases l with
    | nil => rfl
    | cons b l => rfl

/-! ### Claim theorems -/

/-- C1: for every input item list, no URL appears in the accepted-item lists of
two different sections of the mapping returned by `categorize_items`: if
`(s1, l1)` and `(s2, l2)` are entries of the result with `s1 ≠ s2`, then any
`a ∈ l1` and `b ∈ l2` have different URLs. -/
theorem c1_url_exclusive (items : List Item) (s1 s2 : String)
    (l1 l2 : List AItem)
    (h1 : (s1, l1) ∈ categorize_items items)
    (h2 : (s2, l2) ∈ categorize_items items)
    (hne : s1 ≠ s2) (a : AItem) (ha : a ∈ l1) (b : AItem) (hb : b ∈ l2) :
    a.url ≠ b.url := by
  have hinv := catFold_inv (sortDesc items) initCatState initSections_keys
    initSections_urlInv initSections_pairwise
  have hp : (categorize_items items).Pairwise
      (fun p q => ∀ x ∈ p.2, ∀ y ∈ q.2, x.url ≠ y.url) := hinv.2
  have hsym : Symmetric (fun p q : String × List AItem =>
      ∀ x ∈ p.2, ∀ y ∈ q.2, x.url ≠ y.url) := by
    intro p q h x hx y hy
    exact (h y hy x hx).symm
  have hne' : (s1, l1) ≠ (s2, l2) := by
    intro e
    exact hne (congrArg Prod.fst e)
  exact hp.forall hsym h1 h2 hne' a ha b hb

/-- C1 witness: on the concrete two-item input `exItems1`, the multilateral
and Canada sections each hold one item and their URLs differ. -/
theorem c1_url_exclusive_witness :
    ("multilateral_finance", [exAccA]) ∈ categorize_items exItems1
    ∧ ("canada_watch", [exAccB]) ∈ categorize_items exItems1
    ∧ exAccA.url ≠ exAccB.url :=
  ⟨by decide, by decide,
    c1_url_exclusive exItems1 "multilateral_finance" "canada_watch"
      [exAccA] [exAccB] (by decide) (by decide) (by decide)
      exAccA (by decide) exAccB (by decide)⟩

/-- C2 counterexample: `exDupA` and `exDupB` have titles equal up to
surrounding whitespace and identical URLs, so by the claim they should
collapse to one, yet `deduplicate` keeps both: the code hashes
`(title + url).lower().strip()`, stripping only the concatenation's outer
whitespace, so the trailing space of `exDupA`'s title makes the keys differ. -/
theorem c2_dedup_counterexample :
    pyStrip (pyLower exDupA.title) = pyStrip (pyLower exDupB.title)
    ∧ pyStrip (pyLower exDupA.url) = pyStrip (pyLower exDupB.url)
    ∧ deduplicate [exDupA, exDupB] = [exDupA, exDupB] :=
  ⟨by decide, by decide, by decide⟩

/-- C2 amended: `deduplicate` returns the items in original order keeping only
the first occurrence of each identity hash, where the identity is the hash of
`trim(lowercase(title ++ url))` — lowercasing and trimming applied to the
concatenation, not to each field. -/
theorem c2_dedup_amended (items : List Item) :
    deduplicate items = dedupFirst items
    ∧ (deduplicate items).Sublist items
    ∧ (deduplicate items).Pairwise (fun a b => item_hash a ≠ item_hash b) := by
  refine ⟨deduplicate_eq items, ?_, ?_⟩
  · rw [deduplicate_eq]
    exact dedupFirst_sublist items
  · rw [deduplicate_eq]
    exact dedupFirst_pairwise items

/-- C3: every section list of `categorize_items` has at most 10 items; the
retained items are exactly the first 10 items qualifying for that section in
processing order; and the processing order is the relevance-score-descending
order, stable on ties (a permutation of the input that is sorted descending
and preserves input order within every score class). -/
theorem c3_capacity (items : List Item) (s : String) :
    (dictGet (categorize_items items) s).length ≤ 10
    ∧ dictGet (categorize_items items) s
        = ((qualList s initCatState (sortDesc items)).take 10).map
            (fun it => acceptedOf it (bestOf it).2)
    ∧ (sortDesc items).Perm items
    ∧ (sortDesc items).Pairwise (fun a b => relScore b ≤ relScore a)
    ∧ (∀ k, (sortDesc items).filter (fun it => relScore it == k)
          = items.filter (fun it => relScore it == k)) := by
  have hlen0 : (dictGet initCatState.sections s).length ≤ MAX_ITEMS_PER_SECTION := by
    have h0 : dictGet initCatState.sections s = [] := dictGet_init s
    rw [h0]
    simp [MAX_ITEMS_PER_SECTION]
  have hmain := catFold_get s (sortDesc items) initCatState initSections_keys hlen0
  have h0 : dictGet initCatState.sections s = [] := dictGet_init s
  rw [h0] at hmain
  simp only [List.length_nil, Nat.sub_zero, List.nil_append, MAX_ITEMS_PER_SECTION] at hmain
  have heq : dictGet (categorize_items items) s
      = ((qualList s initCatState (sortDesc items)).take 10).map
          (fun it => acceptedOf it (bestOf it).2) := hmain
  refine ⟨?_, heq, sortDesc_perm items, sortDesc_sorted items, fun k => sortDesc_filter items k⟩
  rw [heq]
  simp only [List.length_map, List.length_take]
  exact Nat.min_le_left _ _

/-- C4: with duplicate-free (lowercased) keyword lists — the only case in which
"per distinct keyword" is unambiguous — `keyword_relevance` returns exactly the
subsequence of items whose distinct-keyword score (+2 per distinct primary
keyword found, +1 per distinct secondary keyword, +3 for tier 1, +1 for
tier 2) is at least 2, each annotated with that score; items scoring below 2
(in particular exactly 1) are silently dropped, and the function is total. -/
theorem c4_scorer (items : List Item) (cfg : KwConfig)
    (hp : (cfg.primary.map pyLower).Nodup)
    (hs : (cfg.secondary.map pyLower).Nodup) :
    keyword_relevance items cfg
      = items.filterMap (fun it =>
          if 2 ≤ distinctKwScore cfg it
          then some { it with relevance_score := some (distinctKwScore cfg it) }
          else none) := by
  have hd : ∀ it, distinctKwScore cfg it = kwScore cfg it := by
    intro it
    rw [distinctKwScore, kwScore, List.Nodup.dedup hp, List.Nodup.dedup hs]
  have hfun : (fun it =>
        if 2 ≤ distinctKwScore cfg it
        then some { it with relevance_score := some (distinctKwScore cfg it) }
        else none)
      = (fun it => if 2 ≤ kwScore cfg it then some (annotateItem cfg it) else none) := by
    funext it
    rw [hd it]
    rfl
  rw [keyword_relevance_eq, hfun]

/-- C4 witness: a concrete config and item list; the item with one primary
match at tier 3 scores 2 and is kept annotated, the zero-keyword tier-2 item
scores 1 and is dropped. -/
theorem c4_scorer_witness :
    (exKwCfg.primary.map pyLower).Nodup
    ∧ (exKwCfg.secondary.map pyLower).Nodup
    ∧ keyword_relevance exKwItems exKwCfg
        = exKwItems.filterMap (fun it =>
            if 2 ≤ distinctKwScore exKwCfg it
            then some { it with relevance_score := some (distinctKwScore exKwCfg it) }
            else none) :=
  ⟨by decide, by decide, c4_scorer exKwItems exKwCfg (by decide) (by decide)⟩

/-- C5 counterexample: with three high-significance items the pulse names only
the top two (`top = high_items[:3]` is truncated again to `top[:2]` before
joining), so the third title appears nowhere in the pulse, refuting "up to the
top 3 high-significance titles". -/
theorem c5_high_counterexample :
    highTitles exSec3High = ["T-one", "T-two", "T-three"]
    ∧ generate_pulse exSec3High
        = "Today\x27s digest tracks 3 developments across 1 domains. Key developments include: T-one; T-two. Coverage focuses on multilateral development finance."
    ∧ pyContains (generate_pulse exSec3High) "T-three" = false :=
  ⟨by decide, by decide, by decide⟩

/-- C5 amended: whenever the categorized result has high-significance items,
the pulse (a space-join of its clause list) contains a clause naming them:
exactly one high item is named individually as the top story; with two or more
high items exactly the top **2** titles (not 3) are joined with `"; "` in the
key-developments clause. -/
theorem c5_high_amended (sections : SectionsDict) :
    (highTitles sections ≠ [] →
        generate_pulse sections = pyJoin " " (pulseParts sections))
    ∧ ((highTitles sections).length = 1 →
        ("Top story: " ++ (highTitles sections).headD "" ++ ".")
          ∈ pulseParts sections)
    ∧ (2 ≤ (highTitles sections).length →
        ("Key developments include: "
            ++ pyJoin "; " ((highTitles sections).take 2) ++ ".")
          ∈ pulseParts sections) := by
  refine ⟨?_, ?_, ?_⟩
  · intro h
    exact generate_pulse_eq sections (total_ne_zero_of_high sections h)
  · intro h1
    have hne : highTitles sections ≠ [] := by
      intro e
      rw [e] at h1
      simp at h1
    have hm := highClause_mem sections hne
    have hcl : highClause (highTitles sections)
        = "Top story: " ++ (highTitles sections).headD "" ++ "." := by
      rw [highClause]
      have htake : (highTitles sections).take 3 = highTitles sections :=
        List.take_of_length_le (by omega)
      rw [htake, if_pos h1]
    rw [← hcl]
    exact hm
  · intro h2
    have hne : highTitles sections ≠ [] := by
      intro e
      rw [e] at h2
      simp at h2
    have hm := highClause_mem sections hne
    have hcl : highClause (highTitles sections)
        = "Key developments include: "
            ++ pyJoin "; " ((highTitles sections).take 2) ++ "." := by
      rw [highClause]
      have hlen : ((highTitles sections).take 3).length ≠ 1 := by
        simp only [List.length_take]
        omega
      rw [if_neg hlen, take_two_take_three]
    rw [← hcl]
    exact hm

/-- C5 amended witness: concrete results with one and with three high items. -/
theorem c5_high_amended_witness :
    ("Top story: T-solo." ∈ pulseParts exSec1High)
    ∧ ("Key developments include: T-one; T-two." ∈ pulseParts exSec3High) :=
  ⟨(by decide : ("Top story: " ++ (highTitles exSec1High).headD "" ++ ".")
        = "Top story: T-solo.")
      ▸ (c5_high_amended exSec1High).2.1 (by decide),
   (by decide : ("Key developments include: "
          ++ pyJoin "; " ((highTitles exSec3High).take 2) ++ ".")
        = "Key developments include: T-one; T-two.")
      ▸ (c5_high_amended exSec3High).2.2 (by decide)⟩

/-- C6 counterexample: with exactly two active sections the coverage clause is
`"Coverage spans A, and B."` — a comma before the "and" — not the claimed
`"A and B"`. -/
theorem c6_coverage_counterexample :
    (activeSections exSec2Active).length = 2
    ∧ generate_pulse exSec2Active
        = "Today\x27s digest tracks 2 developments across 2 domains. Coverage spans multilateral development finance, and Canadian infrastructure."
    ∧ pyContains (generate_pulse exSec2Active)
        "multilateral development finance and Canadian" = false
    ∧ pyContains (generate_pulse exSec2Active) ", and Canadian" = true :=
  ⟨by decide, by decide, by decide, by decide⟩

/-- C6 amended: the coverage clause names up to 4 active section display
labels; for one label it is `"Coverage focuses on A."`; for two or more labels
it is `"Coverage spans "` followed by all but the last label joined with
`", "`, then `", and "` and the last label — i.e. a comma precedes the "and"
even for exactly two labels. -/
theorem c6_coverage_amended (sections : SectionsDict) :
    (activeSections sections ≠ [] →
        generate_pulse sections = pyJoin " " (pulseParts sections))
    ∧ ((((activeSections sections).take 4).map labelOf).length = 1 →
        ("Coverage focuses on "
            ++ (((activeSections sections).take 4).map labelOf).headD "" ++ ".")
          ∈ pulseParts sections)
    ∧ (2 ≤ (((activeSections sections).take 4).map labelOf).length →
        ("Coverage spans "
            ++ pyJoin ", " (((activeSections sections).take 4).map labelOf).dropLast
            ++ ", and "
            ++ (((activeSections sections).take 4).map labelOf).getLastD ""
            ++ ".")
          ∈ pulseParts sections) := by
  refine ⟨?_, ?_, ?_⟩
  · intro h
    exact generate_pulse_eq sections (total_ne_zero_of_active sections h)
  · intro h1
    have hne : ((activeSections sections).take 4).map labelOf ≠ [] := by
      intro e
      rw [e] at h1
      simp at h1
    have hm := coverageClause_mem sections hne
    have hcl : coverageClause (((activeSections sections).take 4).map labelOf)
        = "Coverage focuses on "
            ++ (((activeSections sections).take 4).map labelOf).headD "" ++ "." := by
      rw [coverageClause, if_neg (by omega)]
    rw [← hcl]
    exact hm
  · intro h2
    have hne : ((activeSections sections).take 4).map labelOf ≠ [] := by
      intro e
      rw [e] at h2
      simp at h2
    have hm := coverageClause_mem sections hne
    have hcl : coverageClause (((activeSections sections).take 4).map labelOf)
        = "Coverage spans "
            ++ pyJoin ", " (((activeSections sections).take 4).map labelOf).dropLast
            ++ ", and "
            ++ (((activeSections sections).take 4).map labelOf).getLastD ""
            ++ "." := by
      rw [coverageClause, if_pos (by omega)]
    rw [← hcl]
    exact hm

/-- C6 amended witness: concrete results with one and with two active sections. -/
theorem c6_coverage_amended_witness :
    ("Coverage focuses on multilateral development finance." ∈ pulseParts exSec1High)
    ∧ ("Coverage spans multilateral development finance, and Canadian infrastructure."
        ∈ pulseParts exSec2Active) :=
  ⟨(by decide : ("Coverage focuses on "
          ++ (((activeSections exSec1High).take 4).map labelOf).headD "" ++ ".")
        = "Coverage focuses on multilateral development finance.")
      ▸ (c6_coverage_amended exSec1High).2.1 (by decide),
   (by decide : ("Coverage spans "
          ++ pyJoin ", " (((activeSections exSec2Active).take 4).map labelOf).dropLast
          ++ ", and "
          ++ (((activeSections exSec2Active).take 4).map labelOf).getLastD "" ++ ".")
        = "Coverage spans multilateral development finance, and Canadian infrastructure.")
      ▸ (c6_coverage_amended exSec2Active).2.2 (by decide)⟩

/-- C7 counterexample: `categorize_items` sorts the caller's list in place
(`items.sort(...)`), so after the call the caller's two-element list is
reordered — its order is not left unchanged. -/
theorem c7_mutation_counterexample :
    categorize_items_post [exSortA, exSortB] = [exSortB, exSortA]
    ∧ [exSortB, exSortA] ≠ [exSortA, exSortB] :=
  ⟨by decide, by decide⟩

/-- C7 amended: `keyword_relevance` only annotates the caller's items (the
returned list is exactly the kept sublist of the annotated post-state),
`deduplicate` returns a sublist of the untouched input, and the synthesizers
only read their input; but `categorize_items` additionally reorders the
caller's list in place: afterwards it is a permutation of the original,
sorted by relevance score descending, stable within each score class. -/
theorem c7_frame_amended (items : List Item) (cfg : KwConfig) :
    keyword_relevance items cfg
      = (keyword_relevance_post items cfg).filter
          (fun it => decide (2 ≤ kwScore cfg it))
    ∧ (deduplicate items).Sublist items
    ∧ (categorize_items_post items).Perm items
    ∧ (categorize_items_post items).Pairwise (fun a b => relScore b ≤ relScore a)
    ∧ (∀ k, (categorize_items_post items).filter (fun it => relScore it == k)
          = items.filter (fun it => relScore it == k)) := by
  refine ⟨?_, ?_, sortDesc_perm items, sortDesc_sorted items,
    fun k => sortDesc_filter items k⟩
  · rw [keyword_relevance_eq, keyword_relevance_post]
    induction items with
    | nil => rfl
    | cons it l ih =>
      rw [List.filterMap_cons, List.map_cons, List.filter_cons]
      by_cases h : 2 ≤ kwScore cfg it
      · simp [h, kwScore_annotateItem, ih]
      · simp [h, kwScore_annotateItem, ih]
  · rw [deduplicate_eq]
    exact dedupFirst_sublist items

set_option maxRecDepth 100000 in
/-- C8: the outlook depends only on the number of active sections, with the
three fixed templates selected at the ≥5 / ≥3 thresholds; and on the empty
input the pipeline yields all six sections empty, the fixed quiet-day pulse
and the light-day outlook. -/
theorem c8_outlook_quiet :
    (∀ s1 s2 : SectionsDict, activeCount s1 = activeCount s2 →
        generate_outlook s1 = generate_outlook s2)
    ∧ (∀ s : SectionsDict, 5 ≤ activeCount s → generate_outlook s = broadOutlook)
    ∧ (∀ s : SectionsDict, 3 ≤ activeCount s → activeCount s < 5 →
        generate_outlook s = moderateOutlook)
    ∧ (∀ s : SectionsDict, activeCount s < 3 → generate_outlook s = lightOutlook)
    ∧ categorize_items []
        = [("multilateral_finance", []), ("major_economies", []),
           ("canada_watch", []), ("project_finance_delivery", []),
           ("climate_sustainability", []), ("tech_innovation", [])]
    ∧ generate_pulse (categorize_items [])
        = "A quiet day across global infrastructure — no significant developments met our relevance threshold. Check back tomorrow."
    ∧ generate_outlook (categorize_items []) = lightOutlook := by
  refine ⟨?_, ?_, ?_, ?_, by decide, by decide, by decide⟩
  · intro s1 s2 h
    rw [generate_outlook, generate_outlook, h]
  · intro s h
    rw [generate_outlook, if_pos h]
  · intro s h3 h5
    rw [generate_outlook, if_neg (by omega), if_pos h3]
  · intro s h
    rw [generate_outlook, if_neg (by omega), if_neg (by omega)]

/-- C9: along the categorization run the used-URL set contains exactly the
URLs of accepted items; concretely, on `exC9` the eleventh item (URL `dup`)
is rejected only by capacity and does not mark its URL used, so the later
twelfth item with the same URL is still accepted into `canada_watch`. -/
theorem c9_used_urls :
    (∀ (items : List Item) (u : String),
        u ∈ (catRun items).used_urls ↔ InSections (catRun items).sections u)
    ∧ (dictGet (categorize_items exC9) "multilateral_finance").length = 10
    ∧ "dup" ∉ (dictGet (categorize_items exC9) "multilateral_finance").map AItem.url
    ∧ (dictGet (categorize_items exC9) "canada_watch").map AItem.url = ["dup"] := by
  refine ⟨?_, by decide, by decide, by decide⟩
  intro items u
  exact (catFold_inv (sortDesc items) initCatState initSections_keys
    initSections_urlInv initSections_pairwise).1 u

/-- C10: for every input, `categorize_items` returns a mapping whose keys are
exactly the six fixed section identifiers, in rule-table order (each bound to
a possibly empty list). -/
theorem c10_keys (items : List Item) :
    (categorize_items items).map Prod.fst
      = ["multilateral_finance", "major_economies", "canada_watch",
         "project_finance_delivery", "climate_sustainability", "tech_innovation"] := by
  unfold categorize_items catRun
  rw [catFold_keys]
  rfl

end InfraDigest
